import Mathlib

/-!
Verification of the league-of-legends-customs repository.

The repository builds two balanced 5-player teams out of a 10-player roster
(src/interactions/create_teams.py and create_teams_v2.py) and updates per-role
MMR ratings after a match (src/interactions/upload_game_results.py).  This file
gives a shallow embedding of the algorithmic core of those modules and proves
or refutes the specification claims about them.

Conventions of the embedding:
- Python ints are modelled as Lean Int; Python floor division as Int.fdiv.
- The five roles are a fixed inductive type; a FILL (no preference) entry is
  modelled as Option.none.
- The scipy linear_sum_assignment call of create_teams_v2.py is modelled by an
  exhaustive argmax over all 120 role permutations; scipy's documented contract
  is that it returns an assignment of maximal total value, with unspecified
  tie-breaking, and the argmax satisfies that contract (ties broken as
  first-found in lexicographic enumeration order).
- Dictionaries keyed by strings are modelled as association lists with
  overwrite-on-insert, or as functions into Option.
-/

/-- The five roles of create_teams_v2.py (ROLES constant, line 41). -/
inductive Role where
  | TOP | JUNGLE | MID | ADC | SUPPORT
deriving DecidableEq, Repr

/-- ROLES = ["TOP", "JUNGLE", "MID", "ADC", "SUPPORT"] in list order. -/
def ROLES : List Role := [Role.TOP, Role.JUNGLE, Role.MID, Role.ADC, Role.SUPPORT]

/-- itertools.combinations: all k-element sublists of l, in lexicographic order
of positions, as used by combinations(range(10), 5). -/
def combinations {α : Type} : List α → Nat → List (List α)
  | _, 0 => [[]]
  | [], _ + 1 => []
  | x :: xs, k + 1 => ((combinations xs k).map (fun c => x :: c)) ++ combinations xs (k + 1)

/-- Helper for permutations: all ways to pick one element out of a list,
returning the element and the remaining list (original order kept).
picks [a,b,c] = [(a,[b,c]), (b,[a,c]), (c,[a,b])]. -/
def picks {α : Type} : List α → List (α × List α)
  | [] => []
  | x :: xs => (x, xs) :: (picks xs).map (fun p => (p.1, x :: p.2))

theorem length_of_mem_picks {α : Type} :
    ∀ {l : List α} {p : α × List α}, p ∈ picks l → p.2.length + 1 = l.length := by
  intro l
  induction l with
  | nil => intro p hp; simp [picks] at hp
  | cons x xs ih =>
    intro p hp
    simp only [picks, List.mem_cons, List.mem_map] at hp
    rcases hp with h | ⟨q, hq, rfl⟩
    · subst h; simp
    · have := ih hq
      simp only [List.length_cons]
      omega

theorem cons_perm_of_mem_picks {α : Type} :
    ∀ {l : List α} {p : α × List α}, p ∈ picks l → List.Perm (p.1 :: p.2) l := by
  intro l
  induction l with
  | nil => intro p hp; simp [picks] at hp
  | cons x xs ih =>
    intro p hp
    simp only [picks, List.mem_cons, List.mem_map] at hp
    rcases hp with h | ⟨q, hq, rfl⟩
    · subst h; exact List.Perm.refl _
    · exact (List.Perm.swap x q.1 q.2).trans ((ih hq).cons x)

/-- Fuel-driven permutation enumeration; with fuel = length it yields all
permutations in the order of itertools.permutations. -/
def permsFuel {α : Type} : Nat → List α → List (List α)
  | 0, _ => [[]]
  | n + 1, l => (picks l).flatMap (fun p => (permsFuel n p.2).map (fun q => p.1 :: q))

/-- itertools.permutations(l): all permutations of l, lexicographic in the
positions of the input. -/
def permutationsLex {α : Type} (l : List α) : List (List α) :=
  permsFuel l.length l

theorem perm_of_mem_permsFuel {α : Type} :
    ∀ {n : Nat} {l q : List α}, q ∈ permsFuel n l → l.length = n → List.Perm q l := by
  intro n
  induction n with
  | zero =>
    intro l q hq hl
    simp only [permsFuel, List.mem_singleton] at hq
    subst hq
    have : l = [] := List.length_eq_zero.mp hl
    subst this; exact List.Perm.refl _
  | succ n ih =>
    intro l q hq hl
    simp only [permsFuel, List.mem_flatMap, List.mem_map] at hq
    obtain ⟨p, hp, q', hq', rfl⟩ := hq
    have hlen : p.2.length + 1 = l.length := length_of_mem_picks hp
    have hperm : List.Perm q' p.2 := ih hq' (by omega)
    exact (hperm.cons p.1).trans (cons_perm_of_mem_picks hp)

theorem perm_of_mem_permutationsLex {α : Type} {l q : List α}
    (h : q ∈ permutationsLex l) : List.Perm q l :=
  perm_of_mem_permsFuel h rfl

/-- One step of the strict-improvement argmax loop: keep the incumbent unless
the candidate scores strictly higher. -/
def argmaxStep {α : Type} (f : α → Int) (b : Option α) (x : α) : Option α :=
  match b with
  | none => some x
  | some y => if f y < f x then some x else some y

/-- Generic first-found argmax over a list by an integer score, modelling both
the strict-improvement loop of create_teams.py and (as an optimal-assignment
oracle) scipy's linear_sum_assignment. -/
def argmaxBy {α : Type} (f : α → Int) (l : List α) : Option α :=
  l.foldl (argmaxStep f) none

theorem argmaxStep_none {α : Type} (f : α → Int) (x : α) :
    argmaxStep f none x = some x := rfl

theorem argmaxStep_some {α : Type} (f : α → Int) (y x : α) :
    argmaxStep f (some y) x = if f y < f x then some x else some y := rfl

private theorem argmaxBy_foldl_spec {α : Type} (f : α → Int) :
    ∀ (l : List α) (b m : Option α),
      l.foldl (argmaxStep f) b = m →
      (m = b ∨ ∃ a, m = some a ∧ a ∈ l) ∧
      (∀ a, m = some a → (∀ x ∈ l, f x ≤ f a) ∧ (∀ y, b = some y → f y ≤ f a)) := by
  intro l
  induction l with
  | nil =>
    intro b m h
    simp only [List.foldl_nil] at h
    subst h
    exact ⟨Or.inl rfl, fun a ha => ⟨by simp, fun y hy => by rw [hy] at ha; cases ha; exact le_refl _⟩⟩
  | cons x xs ih =>
    intro b m h
    simp only [List.foldl_cons] at h
    obtain ⟨hmem, hle⟩ := ih (argmaxStep f b x) m h
    have hstep_val : ∀ a, argmaxStep f b x = some a → f x ≤ f a := by
      intro a ha
      cases b with
      | none => rw [argmaxStep_none] at ha; cases ha; exact le_refl _
      | some y =>
        rw [argmaxStep_some] at ha
        by_cases hc : f y < f x
        · rw [if_pos hc] at ha; cases ha; exact le_refl _
        · rw [if_neg hc] at ha; cases ha; exact le_of_not_lt hc
    have hstep_old : ∀ y a, b = some y → argmaxStep f b x = some a → f y ≤ f a := by
      intro y a hb ha
      subst hb
      rw [argmaxStep_some] at ha
      by_cases hc : f y < f x
      · rw [if_pos hc] at ha; cases ha; exact le_of_lt hc
      · rw [if_neg hc] at ha; cases ha; exact le_refl _
    constructor
    · rcases hmem with rfl | ⟨a, rfl, ha⟩
      · cases b with
        | none => exact Or.inr ⟨x, rfl, by simp⟩
        | some y =>
          rw [argmaxStep_some]
          by_cases hc : f y < f x
          · rw [if_pos hc]; exact Or.inr ⟨x, rfl, by simp⟩
          · rw [if_neg hc]; exact Or.inl rfl
      · exact Or.inr ⟨a, rfl, List.mem_cons_of_mem _ ha⟩
    · intro a ha
      obtain ⟨h1, h2⟩ := hle a ha
      have hsome : ∃ c, argmaxStep f b x = some c := by
        cases b with
        | none => exact ⟨x, rfl⟩
        | some y =>
          rw [argmaxStep_some]
          by_cases hc : f y < f x
          · rw [if_pos hc]; exact ⟨x, rfl⟩
          · rw [if_neg hc]; exact ⟨y, rfl⟩
      obtain ⟨c, hc⟩ := hsome
      have hca : f c ≤ f a := h2 c hc
      constructor
      · intro z hz
        rcases List.mem_cons.mp hz with rfl | hz'
        · exact le_trans (hstep_val c hc) hca
        · exact h1 z hz'
      · intro y hy
        exact le_trans (hstep_old y c hy hc) hca

theorem argmaxBy_le {α : Type} (f : α → Int) (l : List α) (m : α)
    (h : argmaxBy f l = some m) : ∀ x ∈ l, f x ≤ f m :=
  ((argmaxBy_foldl_spec f l none _ h).2 m rfl).1

theorem argmaxBy_mem {α : Type} (f : α → Int) (l : List α) (m : α)
    (h : argmaxBy f l = some m) : m ∈ l := by
  rcases (argmaxBy_foldl_spec f l none _ h).1 with h' | ⟨a, ha, hmem⟩
  · cases h'
  · cases ha; exact hmem

theorem argmaxBy_isSome {α : Type} (f : α → Int) (x : α) (l : List α) :
    (argmaxBy f (x :: l)).isSome = true := by
  have : ∀ (l : List α) (b : α),
      (l.foldl (argmaxStep f) (some b)).isSome = true := by
    intro l
    induction l with
    | nil => intro b; rfl
    | cons z zs ih =>
      intro b
      simp only [List.foldl_cons, argmaxStep_some]
      by_cases hc : f b < f z
      · rw [if_pos hc]; exact ih z
      · rw [if_neg hc]; exact ih b
  simpa [argmaxBy, argmaxStep_none] using this l x

namespace CreateTeamsV2

/-! Embedding of src/interactions/create_teams_v2.py. -/

/-- PRIMARY_BONUS = 300 (assign_roles_optimally, line 132). -/
def PRIMARY_BONUS : Int := 300

/-- SECONDARY_BONUS = 100 (assign_roles_optimally, line 133). -/
def SECONDARY_BONUS : Int := 100

/-- Player class (lines 44-54): name, preferred roles and the per-role MMR
map. A FILL preference is modelled as none; mmr_map is total because the data
model guarantees all five roles are present. -/
structure Player where
  name : String
  primary : Option Role
  secondary : Option Role
  mmr_map : Role → Int

/-- best_mmr = max(mmr_map.values()) (line 50). -/
def Player.best_mmr (p : Player) : Int :=
  (ROLES.map p.mmr_map).foldl max (p.mmr_map Role.TOP)

/-- is_offrole (lines 52-54): the player is 500+ MMR below their best role. -/
def Player.is_offrole (p : Player) (assigned_role : Role) : Bool :=
  decide (500 ≤ p.best_mmr - p.mmr_map assigned_role)

/-- One entry of the cost matrix of assign_roles_optimally (lines 135-143):
the player's MMR for the role plus the preference bonus (the code negates this
value because scipy minimizes; we keep it positive and maximize). -/
def scoreEntry (p : Player) (role : Role) : Int :=
  p.mmr_map role +
    (if p.primary = some role then PRIMARY_BONUS
     else if p.secondary = some role then SECONDARY_BONUS else 0)

/-- Total bonus-weighted score of assigning role perm[i] to team[i]. -/
def permScore (team : List Player) (perm : List Role) : Int :=
  ((team.zip perm).map (fun pr => scoreEntry pr.1 pr.2)).sum

/-- Models the scipy linear_sum_assignment call (line 146): an assignment of
roles to players maximizing the total score.  scipy guarantees optimality with
unspecified tie-breaking; here ties go to the first optimum in lexicographic
permutation order. -/
def bestPerm (team : List Player) : List Role :=
  (argmaxBy (permScore team) (permutationsLex ROLES)).getD ROLES

/-- One (player, role, mmr) triple of the returned role_assignment list. -/
structure AssignEntry where
  player : Player
  role : Role
  mmr : Int

/-- Result of assign_roles_optimally: (role_assignment, total_mmr,
offrole_count). -/
structure AssignResult where
  role_assignment : List AssignEntry
  total_mmr : Int
  offrole_count : Nat

/-- assign_roles_optimally (lines 124-163): pick the score-maximizing
assignment, then report the raw (bonus-free) MMR total and the off-role count
of the chosen assignment. -/
def assign_roles_optimally (team : List Player) : AssignResult :=
  let entries := (team.zip (bestPerm team)).map
    (fun pr => AssignEntry.mk pr.1 pr.2 (pr.1.mmr_map pr.2))
  { role_assignment := entries
    total_mmr := (entries.map (fun e => e.mmr)).sum
    offrole_count := (entries.filter (fun e => e.player.is_offrole e.role)).length }

theorem permutationsLex_ROLES_ne_nil : permutationsLex ROLES ≠ [] := by decide

theorem bestPerm_spec (team : List Player) :
    bestPerm team ∈ permutationsLex ROLES ∧
    ∀ p ∈ permutationsLex ROLES, permScore team p ≤ permScore team (bestPerm team) := by
  unfold bestPerm
  rcases h : argmaxBy (permScore team) (permutationsLex ROLES) with _ | m
  · exfalso
    rcases hl : permutationsLex ROLES with _ | ⟨x, xs⟩
    · exact permutationsLex_ROLES_ne_nil hl
    · have := argmaxBy_isSome (permScore team) x xs
      rw [← hl, h] at this
      simp at this
  · simp only [Option.getD_some]
    exact ⟨argmaxBy_mem _ _ _ h, argmaxBy_le _ _ _ h⟩

theorem bestPerm_perm_ROLES (team : List Player) :
    List.Perm (bestPerm team) ROLES :=
  perm_of_mem_permutationsLex (bestPerm_spec team).1

end CreateTeamsV2

namespace CreateTeamsV2

/-- C2: for every team of 5 profiles, the role assignment chosen by
assign_roles_optimally has bonus-weighted total score (rating + fixed primary
bonus 300 / secondary bonus 100 / 0) at least that of every other
role-to-player bijection, and the reported total_mmr is the sum of the raw
per-role ratings of the chosen assignment, with all bonuses excluded. -/
theorem c2_optimizer_maximizes_score_and_reports_raw_total
    (team : List Player) (perm : List Role) (hperm : perm ∈ permutationsLex ROLES) :
    permScore team perm ≤ permScore team (bestPerm team) ∧
    (assign_roles_optimally team).total_mmr =
      ((team.zip (bestPerm team)).map (fun pr => pr.1.mmr_map pr.2)).sum := by
  refine ⟨(bestPerm_spec team).2 perm hperm, ?_⟩
  simp [assign_roles_optimally, List.map_map]
  rfl

/-- A concrete five-player team used to instantiate theorems with hypotheses. -/
def sampleTeam : List Player :=
  [Player.mk "alice" (some Role.TOP) (some Role.JUNGLE)
      (fun r => if r = Role.TOP then 2000 else 1400),
   Player.mk "bob" (some Role.JUNGLE) none (fun _ => 1500),
   Player.mk "cleo" none none (fun r => if r = Role.MID then 1800 else 1200),
   Player.mk "dan" (some Role.ADC) (some Role.MID) (fun _ => 1000),
   Player.mk "eve" (some Role.SUPPORT) none
      (fun r => if r = Role.SUPPORT then 900 else 700)]

theorem c2_optimizer_witness :
    permScore sampleTeam ROLES ≤ permScore sampleTeam (bestPerm sampleTeam) ∧
    (assign_roles_optimally sampleTeam).total_mmr =
      ((sampleTeam.zip (bestPerm sampleTeam)).map (fun pr => pr.1.mmr_map pr.2)).sum :=
  c2_optimizer_maximizes_score_and_reports_raw_total sampleTeam ROLES (by decide)

/-- C10: for a team of exactly 5 players the returned role_assignment is a
bijection: it lists exactly the five team members in order, each with one role,
and the roles form a permutation of the five roles; moreover the returned
offrole_count is the number of assigned players whose best rating exceeds
their rating for the assigned role by at least 500. -/
theorem c10_assignment_is_bijection_with_offrole_count
    (team : List Player) (h5 : team.length = 5) :
    (assign_roles_optimally team).role_assignment.map (fun e => e.player) = team ∧
    List.Perm ((assign_roles_optimally team).role_assignment.map (fun e => e.role)) ROLES ∧
    (assign_roles_optimally team).offrole_count =
      ((assign_roles_optimally team).role_assignment.filter
        (fun e => decide (500 ≤ e.player.best_mmr - e.player.mmr_map e.role))).length := by
  have hlen : (bestPerm team).length = 5 := (bestPerm_perm_ROLES team).length_eq
  refine ⟨?_, ?_, rfl⟩
  · simp only [assign_roles_optimally, List.map_map]
    have : ((fun e : AssignEntry => e.player) ∘
        (fun pr : Player × Role => AssignEntry.mk pr.1 pr.2 (pr.1.mmr_map pr.2))) =
        Prod.fst := rfl
    rw [this]
    exact List.map_fst_zip team (bestPerm team) (by omega)
  · simp only [assign_roles_optimally, List.map_map]
    have : ((fun e : AssignEntry => e.role) ∘
        (fun pr : Player × Role => AssignEntry.mk pr.1 pr.2 (pr.1.mmr_map pr.2))) =
        Prod.snd := rfl
    rw [this, List.map_snd_zip team (bestPerm team) (by omega)]
    exact bestPerm_perm_ROLES team

theorem c10_assignment_witness :
    (assign_roles_optimally sampleTeam).role_assignment.map (fun e => e.player) = sampleTeam ∧
    List.Perm ((assign_roles_optimally sampleTeam).role_assignment.map (fun e => e.role)) ROLES ∧
    (assign_roles_optimally sampleTeam).offrole_count =
      ((assign_roles_optimally sampleTeam).role_assignment.filter
        (fun e => decide (500 ≤ e.player.best_mmr - e.player.mmr_map e.role))).length :=
  c10_assignment_is_bijection_with_offrole_count sampleTeam rfl

end CreateTeamsV2

namespace CreateTeams

/-! Embedding of src/interactions/create_teams.py (the earlier,
permutation-search generation of the optimizer). -/

/-- Player (lines 39-54) of create_teams.py: a single base MMR plus preferred
roles; the rank-string bookkeeping is irrelevant to the optimizer and elided.
A Fill preference is modelled as none. -/
structure Player where
  name : String
  primary : Option Role
  secondary : Option Role
  base_mmr : Int

/-- ROLE_PENALTY_MAP applied in get_effective_stats (lines 47-54):
0 on the primary role, -150 on the secondary, -350 off-role.  A Fill
preference never equals a concrete role, so Fill players take -350 everywhere,
exactly as the string comparison in the source behaves. -/
def Player.penalty (p : Player) (assigned_role : Role) : Int :=
  if p.primary = some assigned_role then 0
  else if p.secondary = some assigned_role then -150
  else -350

/-- The effective MMR of get_effective_stats: base_mmr + penalty. -/
def Player.effective (p : Player) (assigned_role : Role) : Int :=
  p.base_mmr + p.penalty assigned_role

/-- Preference score weighting of calculate_best_roles_for_team (line 109):
Primary(10), Secondary(5), Off(0). -/
def prefScore (p : Player) (role : Role) : Int :=
  if p.primary = some role then 10
  else if p.secondary = some role then 5 else 0

/-- Total preference score of assigning role perm[i] to team[i]. -/
def permPrefScore (team : List Player) (perm : List Role) : Int :=
  ((team.zip perm).map (fun pr => prefScore pr.1 pr.2)).sum

/-- The permutation kept by the strict-improvement loop of
calculate_best_roles_for_team (lines 102-123): the first permutation, in
itertools order, whose preference score is maximal. -/
def bestPermV1 (team : List Player) : List Role :=
  (argmaxBy (permPrefScore team) (permutationsLex ROLES)).getD ROLES

/-- Index of a role in the ROLES display order, used by the final sort. -/
def roleIdx : Role → Nat
  | Role.TOP => 0
  | Role.JUNGLE => 1
  | Role.MID => 2
  | Role.ADC => 3
  | Role.SUPPORT => 4

/-- Insertion step for the stable sort of the assignment by role order
(line 125). -/
def insertByRole (x : Role × Player × Int) :
    List (Role × Player × Int) → List (Role × Player × Int)
  | [] => [x]
  | y :: ys => if roleIdx y.1 ≤ roleIdx x.1 then y :: insertByRole x ys else x :: y :: ys

/-- calculate_best_roles_for_team (lines 97-127): maximize the preference
score over all 120 permutations, sort the winning assignment by role order and
report the summed effective MMR. -/
def calculate_best_roles_for_team (team : List Player) :
    List (Role × Player × Int) × Int :=
  let assignment := (team.zip (bestPermV1 team)).map
    (fun pr => (pr.2, pr.1, pr.1.effective pr.2))
  let best_assignment := assignment.foldr insertByRole []
  (best_assignment, (best_assignment.map (fun x => x.2.2)).sum)

/-- Injection of a create_teams.py player into the create_teams_v2.py data
model: the per-role rating map is the effective MMR (base plus role penalty),
the preferences carry over.  Under this injection both generations of the
optimizer consume the same profile. -/
def toV2 (p : Player) : CreateTeamsV2.Player :=
  CreateTeamsV2.Player.mk p.name p.primary p.secondary (fun r => p.effective r)

/-- The team on which the two optimizer generations disagree: p0 prefers
JUNGLE with TOP as backup, p1 has JUNGLE as backup only, the rest have no
preference; all have base MMR 1000. -/
def divergingTeam : List Player :=
  [Player.mk "p0" (some Role.JUNGLE) (some Role.TOP) 1000,
   Player.mk "p1" none (some Role.JUNGLE) 1000,
   Player.mk "p2" none none 1000,
   Player.mk "p3" none none 1000,
   Player.mk "p4" none none 1000]

set_option maxRecDepth 100000 in
/-- C6 counterexample: on divergingTeam the exhaustive permutation-search
optimizer of create_teams.py keeps the first preference-score-10 assignment
(p0 on TOP, p1 on JUNGLE, total effective MMR 3650), while the matching-based
optimizer of create_teams_v2.py puts p0 on JUNGLE (raw total 3600): the two
strategies do not agree on the chosen assignment or on the reported total. -/
theorem c6_strategies_disagree_counterexample :
    (calculate_best_roles_for_team divergingTeam).2 = 3650 ∧
    (CreateTeamsV2.assign_roles_optimally (divergingTeam.map toV2)).total_mmr = 3600 ∧
    (calculate_best_roles_for_team divergingTeam).2 ≠
      (CreateTeamsV2.assign_roles_optimally (divergingTeam.map toV2)).total_mmr := by
  refine ⟨by decide, by decide, by decide⟩

/-- C6 amended: the two optimizer strategies each maximize their own
objective: the permutation search maximizes the preference-tier score
(primary 10, secondary 5, off-role 0) and ignores ratings, while the
matching-based optimizer maximizes rating plus preference bonus; they are not
interchangeable and need not produce the same optimum (see the
counterexample). This theorem states the permutation search's optimality for
its own objective. -/
theorem c6_amended_each_strategy_optimal_for_own_objective
    (team : List Player) (perm : List Role) (hperm : perm ∈ permutationsLex ROLES) :
    permPrefScore team perm ≤ permPrefScore team (bestPermV1 team) := by
  unfold bestPermV1
  rcases h : argmaxBy (permPrefScore team) (permutationsLex ROLES) with _ | m
  · exfalso
    rcases hl : permutationsLex ROLES with _ | ⟨x, xs⟩
    · rw [hl] at hperm; simp at hperm
    · have := argmaxBy_isSome (permPrefScore team) x xs
      rw [← hl, h] at this
      simp at this
  · simp only [Option.getD_some]
    exact argmaxBy_le _ _ _ h perm hperm

theorem c6_amended_witness :
    permPrefScore divergingTeam ROLES ≤
      permPrefScore divergingTeam (bestPermV1 divergingTeam) :=
  c6_amended_each_strategy_optimal_for_own_objective divergingTeam ROLES (by decide)

end CreateTeams

namespace CreateTeamsV2

/-- The split enumeration of find_best_teams (line 183):
itertools.combinations(range(10), 5), listing team-1 index sets in
lexicographic order.  Mirror splits are not removed. -/
def team_split_indices : List (List Nat) := combinations (List.range 10) 5

/-- team2 index selection (line 193): the indices of range(10) not on team 1,
in roster order. -/
def complementIndices (idx : List Nat) : List Nat :=
  (List.range 10).filter (fun i => decide (i ∉ idx))

set_option maxRecDepth 100000 in
/-- C1 counterexample: the enumerator yields 252 splits, not 126, and the
mirror pair with teams swapped is produced as well: [0,1,2,3,4] and
[5,6,7,8,9] both occur as team-1 index sets, and each is the label-swap of
the other, so two produced splits are equal after swapping team labels. -/
theorem c1_enumerator_counterexample :
    team_split_indices.length = 252 ∧
    team_split_indices.length ≠ 126 ∧
    [0, 1, 2, 3, 4] ∈ team_split_indices ∧
    [5, 6, 7, 8, 9] ∈ team_split_indices ∧
    complementIndices [0, 1, 2, 3, 4] = [5, 6, 7, 8, 9] ∧
    complementIndices [5, 6, 7, 8, 9] = [0, 1, 2, 3, 4] := by
  refine ⟨by decide, by decide, by decide, by decide, by decide, by decide⟩

theorem mem_combinations {α : Type} :
    ∀ (l : List α) (k : Nat) (c : List α),
      c ∈ combinations l k ↔ c.Sublist l ∧ c.length = k := by
  intro l
  induction l with
  | nil =>
    intro k c
    cases k with
    | zero =>
      simp only [combinations, List.mem_singleton]
      constructor
      · rintro rfl; exact ⟨List.nil_sublist _, rfl⟩
      · rintro ⟨hsub, _⟩; exact List.sublist_nil.mp hsub
    | succ k =>
      simp only [combinations, List.not_mem_nil, false_iff, not_and]
      intro hsub
      rw [List.sublist_nil.mp hsub]
      simp
  | cons x xs ih =>
    intro k c
    cases k with
    | zero =>
      simp only [combinations, List.mem_singleton]
      constructor
      · rintro rfl; exact ⟨List.nil_sublist _, rfl⟩
      · rintro ⟨_, hlen⟩; exact List.length_eq_zero.mp hlen
    | succ k =>
      simp only [combinations, List.mem_append, List.mem_map]
      constructor
      · rintro (⟨c', hc', rfl⟩ | hc)
        · obtain ⟨hsub, hlen⟩ := (ih k c').mp hc'
          exact ⟨hsub.cons₂ x, by simp [hlen]⟩
        · obtain ⟨hsub, hlen⟩ := (ih (k + 1) c).mp hc
          exact ⟨hsub.cons x, hlen⟩
      · rintro ⟨hsub, hlen⟩
        cases hsub with
        | cons _ h => exact Or.inr ((ih (k + 1) c).mpr ⟨h, hlen⟩)
        | cons₂ _ h =>
          rename_i c'
          exact Or.inl ⟨c', (ih k c').mpr ⟨h, by simpa using hlen⟩, rfl⟩

theorem combinations_nodup {α : Type} :
    ∀ (l : List α) (k : Nat), l.Nodup → (combinations l k).Nodup := by
  intro l
  induction l with
  | nil => intro k _; cases k <;> simp [combinations]
  | cons x xs ih =>
    intro k hnd
    obtain ⟨hx, hxs⟩ := List.nodup_cons.mp hnd
    cases k with
    | zero => simp [combinations]
    | succ k =>
      simp only [combinations]
      refine List.Nodup.append ?_ (ih (k + 1) hxs) ?_
      · exact (ih k hxs).map (fun a b h => (List.cons.injEq x a x b).mp h |>.2)
      · intro c hc1 hc2
        simp only [List.mem_map] at hc1
        obtain ⟨c', _, rfl⟩ := hc1
        have hsub := ((mem_combinations xs (k + 1) (x :: c')).mp hc2).1
        exact hx (hsub.subset (List.mem_cons_self x c'))

theorem filter_mem_of_sublist {s l : List Nat} (hsub : s.Sublist l) :
    l.Nodup → l.filter (fun i => decide (i ∈ s)) = s := by
  induction hsub with
  | slnil => intro _; rfl
  | cons a h ih =>
    intro hnd
    obtain ⟨ha, hnd'⟩ := List.nodup_cons.mp hnd
    rename_i l₁ l₂
    have han : a ∉ l₁ := fun hmem => ha (h.subset hmem)
    simp only [List.filter_cons, decide_eq_false han, Bool.false_eq_true, if_false]
    exact ih hnd'
  | cons₂ a h ih =>
    intro hnd
    obtain ⟨ha, hnd'⟩ := List.nodup_cons.mp hnd
    rename_i l₁ l₂
    simp only [List.filter_cons, decide_eq_true_eq, List.mem_cons_self, if_true,
      decide_eq_true (List.mem_cons_self a l₁)]
    congr 1
    rw [List.filter_congr, ih hnd']
    intro i hi
    have hia : i ≠ a := fun he => ha (he ▸ hi)
    simp [List.mem_cons, hia]

theorem complementIndices_spec (s : List Nat) (hsub : s.Sublist (List.range 10)) :
    (complementIndices s).Sublist (List.range 10) ∧
    (complementIndices s).length = 10 - s.length ∧
    (∀ i ∈ s, i ∉ complementIndices s) ∧
    (∀ i, i < 10 → i ∈ s ∨ i ∈ complementIndices s) := by
  refine ⟨List.filter_sublist _, ?_, ?_, ?_⟩
  · have hperm := List.filter_append_perm
      (fun i => decide (i ∈ s)) (List.range 10)
    have hlen := hperm.length_eq
    rw [List.length_append, filter_mem_of_sublist hsub (List.nodup_range 10),
      List.length_range] at hlen
    have hcompl : complementIndices s =
        (List.range 10).filter (fun i => !(decide (i ∈ s))) := by
      unfold complementIndices
      apply List.filter_congr
      intro i _
      simp [decide_not]
    rw [hcompl]
    omega
  · intro i hi hmem
    have := (List.mem_filter.mp hmem).2
    simp only [decide_eq_true_eq] at this
    exact this hi
  · intro i hi
    by_cases hmem : i ∈ s
    · exact Or.inl hmem
    · refine Or.inr (List.mem_filter.mpr ⟨List.mem_range.mpr hi, ?_⟩)
      simpa using hmem

set_option maxRecDepth 100000 in
/-- C1 amended: the enumerator yields 252 pairwise distinct label-ordered
splits - every combinatorially distinct 5-vs-5 partition appears exactly
twice, once per team labeling, since each split's complement is also produced
and differs from it - and each produced split has two disjoint teams of size
5 whose union is the full 10-index roster. -/
theorem c1_enumerator_amended :
    team_split_indices.length = 252 ∧
    team_split_indices.Nodup ∧
    ∀ s ∈ team_split_indices,
      complementIndices s ∈ team_split_indices ∧
      complementIndices s ≠ s ∧
      s.length = 5 ∧
      (complementIndices s).length = 5 ∧
      (∀ i ∈ s, i ∉ complementIndices s) ∧
      (∀ i < 10, i ∈ s ∨ i ∈ complementIndices s) := by
  refine ⟨by decide, combinations_nodup (List.range 10) 5 (List.nodup_range 10), ?_⟩
  intro s hs
  obtain ⟨hsub, hlen⟩ := (mem_combinations (List.range 10) 5 s).mp hs
  obtain ⟨hcsub, hclen, hdis, hcover⟩ := complementIndices_spec s hsub
  have hclen5 : (complementIndices s).length = 5 := by rw [hclen, hlen]
  refine ⟨(mem_combinations _ _ _).mpr ⟨hcsub, hclen5⟩, ?_, hlen, hclen5, hdis,
    fun i hi => hcover i hi⟩
  intro heq
  have hne : s ≠ [] := by
    intro h
    rw [h] at hlen
    simp at hlen
  obtain ⟨i, hi⟩ := List.exists_mem_of_ne_nil s hne
  refine hdis i hi ?_
  rw [heq]
  exact hi

set_option maxRecDepth 100000 in
theorem c1_enumerator_amended_witness :
    complementIndices [0, 1, 2, 3, 4] ∈ team_split_indices ∧
    complementIndices [0, 1, 2, 3, 4] ≠ [0, 1, 2, 3, 4] :=
  ⟨(c1_enumerator_amended.2.2 [0, 1, 2, 3, 4] (by decide)).1,
   (c1_enumerator_amended.2.2 [0, 1, 2, 3, 4] (by decide)).2.1⟩

end CreateTeamsV2

namespace CreateTeamsV2

/-- Evaluation of one split inside the loop of find_best_teams
(lines 191-202): run assign_roles_optimally on both teams and form
delta = abs(t1_total - t2_total) and offrole_diff =
abs(t1_offroles - t2_offroles). -/
structure SplitEval where
  t1 : AssignResult
  t2 : AssignResult
  delta : Int
  offrole_diff : Int

def evalSplit (players : List Player) (idx : List Nat) : SplitEval :=
  let team1 := idx.filterMap (fun i => players[i]?)
  let team2 := (complementIndices idx).filterMap (fun i => players[i]?)
  let a1 := assign_roles_optimally team1
  let a2 := assign_roles_optimally team2
  SplitEval.mk a1 a2 |a1.total_mmr - a2.total_mmr|
    |(a1.offrole_count : Int) - (a2.offrole_count : Int)|

/-- The sort key of find_best_teams (lines 177-186): the deviation of team 1's
summed best MMR from half the roster total.  The source computes
abs(team1_mmr - total/2) in floats (always an exact half-integer); we scale by
2 to stay in integers, which preserves the comparison order exactly. -/
def splitDeviation (players : List Player) (idx : List Nat) : Int :=
  |2 * ((idx.filterMap (fun i => players[i]?)).map Player.best_mmr).sum
    - (players.map Player.best_mmr).sum|

/-- Lexicographic comparison of index tuples, the tie-break Python applies
when sorting the (deviation, team1_indices) pairs of line 186. -/
def listLexLt : List Nat → List Nat → Bool
  | [], [] => false
  | [], _ :: _ => true
  | _ :: _, [] => false
  | x :: xs, y :: ys => if x < y then true else if y < x then false else listLexLt xs ys

/-- Strict comparison of (deviation, indices) pairs as Python compares the
tuples built on line 186. -/
def splitLt (x y : Int × List Nat) : Bool :=
  if x.1 < y.1 then true else if y.1 < x.1 then false else listLexLt x.2 y.2

/-- Insertion step of the sort of team_splits.sort() (line 188). -/
def insertSortedSplit (x : Int × List Nat) :
    List (Int × List Nat) → List (Int × List Nat)
  | [] => [x]
  | y :: ys => if splitLt y x then y :: insertSortedSplit x ys else x :: y :: ys

/-- team_splits.sort() (line 188): ascending by (deviation, indices). The keys
are pairwise distinct (the index tuples are), so any correct sort produces the
same list Python's sort does. -/
def sortSplits (l : List (Int × List Nat)) : List (Int × List Nat) :=
  l.foldr insertSortedSplit []

theorem insertSortedSplit_perm (x : Int × List Nat) :
    ∀ l : List (Int × List Nat), List.Perm (insertSortedSplit x l) (x :: l) := by
  intro l
  induction l with
  | nil => exact List.Perm.refl _
  | cons y ys ih =>
    simp only [insertSortedSplit]
    by_cases h : splitLt y x = true
    · rw [if_pos h]
      exact (ih.cons y).trans (List.Perm.swap x y ys)
    · rw [if_neg h]

theorem sortSplits_perm (l : List (Int × List Nat)) :
    List.Perm (sortSplits l) l := by
  induction l with
  | nil => exact List.Perm.refl _
  | cons x xs ih =>
    simp only [sortSplits, List.foldr_cons]
    exact (insertSortedSplit_perm x _).trans (ih.cons x)

/-- The (deviation, team1_indices) list built on lines 182-186. -/
def team_splits (players : List Player) : List (Int × List Nat) :=
  team_split_indices.map (fun idx => (splitDeviation players idx, idx))

/-- The splits in the order the loop of line 191 visits them. -/
def sorted_team_splits (players : List Player) : List (Int × List Nat) :=
  sortSplits (team_splits players)

/-- The running best of find_best_teams: best_assignment (the two
AssignResults), best_delta and best_offrole_diff; None before the first
split is taken. -/
structure Best where
  t1 : AssignResult
  t2 : AssignResult
  delta : Int
  offrole_diff : Int

/-- is_better (lines 205-209): strictly fewer offrole difference, or equal
offrole difference and strictly smaller delta; always true while no best
exists. -/
def isBetter (e : SplitEval) (b : Option Best) : Bool :=
  match b with
  | none => true
  | some best =>
      decide (e.offrole_diff < best.offrole_diff ∨
        (e.offrole_diff = best.offrole_diff ∧ e.delta < best.delta))

/-- The body of the is_better branch (lines 211-216). -/
def updateBest (b : Option Best) (e : SplitEval) : Option Best :=
  if isBetter e b then some (Best.mk e.t1 e.t2 e.delta e.offrole_diff) else b

/-- The split loop of find_best_teams (lines 191-226) including the early
break: once a new best has delta <= 100 and offrole_diff == 0 the search
stops. -/
def searchLoop (players : List Player) :
    List (Int × List Nat) → Option Best → Option Best
  | [], b => b
  | s :: rest, b =>
    let e := evalSplit players s.2
    let b' := updateBest b e
    if isBetter e b && decide (e.delta ≤ 100) && decide (e.offrole_diff = 0)
    then b' else searchLoop players rest b'

/-- find_best_teams (lines 166-231). -/
def find_best_teams (players : List Player) : Option Best :=
  searchLoop players (sorted_team_splits players) none

/-- The same split loop without the early break, used as the exhaustive
baseline. -/
def searchLoopNoBreak (players : List Player) (l : List (Int × List Nat))
    (b : Option Best) : Option Best :=
  l.foldl (fun b s => updateBest b (evalSplit players s.2)) b

/-- Modelled from the spec: exhaustive evaluation of all splits, the baseline
against which section 4.4 requires the pre-sort and early termination to be a
pure performance optimization: every split is evaluated, in enumeration order,
with the same best-candidate tracking and no early exit. -/
def find_best_teams_exhaustive (players : List Player) : Option Best :=
  searchLoopNoBreak players (team_splits players) none

end CreateTeamsV2

namespace CreateTeamsV2

/-- The selection key the loop minimizes: (offrole_diff, delta),
lexicographically. -/
def keyMin (p q : Int × Int) : Int × Int :=
  if p.1 < q.1 ∨ (p.1 = q.1 ∧ p.2 < q.2) then p else q

def keyStep (acc : Option (Int × Int)) (k : Int × Int) : Option (Int × Int) :=
  match acc with
  | none => some k
  | some a => some (keyMin k a)

def bestKey (b : Option Best) : Option (Int × Int) :=
  b.map (fun x => (x.offrole_diff, x.delta))

def evalKey (players : List Player) (idx : List Nat) : Int × Int :=
  ((evalSplit players idx).offrole_diff, (evalSplit players idx).delta)

theorem keyMin_eq_min (p q : Int × Int) :
    keyMin p q = ofLex (min (toLex p) (toLex q)) := by
  unfold keyMin
  by_cases h : p.1 < q.1 ∨ (p.1 = q.1 ∧ p.2 < q.2)
  · rw [if_pos h, min_eq_left (le_of_lt ((Prod.Lex.lt_iff p q).mpr h))]; rfl
  · rw [if_neg h,
      min_eq_right (le_of_not_lt (fun hc => h ((Prod.Lex.lt_iff p q).mp hc)))]
    rfl

theorem keyStep_swap (b : Option (Int × Int)) (x y : Int × Int) :
    keyStep (keyStep b x) y = keyStep (keyStep b y) x := by
  cases b with
  | none =>
    simp only [keyStep, keyMin_eq_min]
    rw [min_comm]
  | some a =>
    simp only [keyStep, keyMin_eq_min]
    congr 1
    rw [toLex_ofLex, toLex_ofLex, min_left_comm]

theorem foldl_keyStep_perm {l1 l2 : List (Int × Int)} (h : List.Perm l1 l2) :
    ∀ b : Option (Int × Int), l1.foldl keyStep b = l2.foldl keyStep b := by
  induction h with
  | nil => intro b; rfl
  | cons x _ ih => intro b; simp only [List.foldl_cons]; exact ih _
  | swap x y l => intro b; simp only [List.foldl_cons]; rw [keyStep_swap]
  | trans _ _ ih1 ih2 => intro b; rw [ih1, ih2]

theorem bestKey_updateBest (b : Option Best) (e : SplitEval) :
    bestKey (updateBest b e) = keyStep (bestKey b) (e.offrole_diff, e.delta) := by
  cases b with
  | none => rfl
  | some best =>
    simp only [updateBest, isBetter, bestKey, keyStep, keyMin, Option.map_some]
    by_cases h : e.offrole_diff < best.offrole_diff ∨
        (e.offrole_diff = best.offrole_diff ∧ e.delta < best.delta)
    · simp [h]
    · simp [h]

theorem bestKey_updateBest_eval (b : Option Best) (players : List Player)
    (idx : List Nat) :
    bestKey (updateBest b (evalSplit players idx)) =
      keyStep (bestKey b) (evalKey players idx) :=
  bestKey_updateBest b (evalSplit players idx)

theorem searchLoopNoBreak_key (players : List Player) :
    ∀ (l : List (Int × List Nat)) (b : Option Best),
      bestKey (searchLoopNoBreak players l b) =
        (l.map (fun s => evalKey players s.2)).foldl keyStep (bestKey b) := by
  intro l
  induction l with
  | nil => intro b; rfl
  | cons s rest ih =>
    intro b
    simp only [searchLoopNoBreak, List.foldl_cons, List.map_cons] at *
    rw [← bestKey_updateBest_eval]
    exact ih _

/-- C7 amended: without the early break, evaluating the splits in the
pre-sorted order selects the same (offrole_diff, delta) key - hence the same
reported gap and offrole balance - as exhaustive evaluation in enumeration
order, so the pre-sort alone never changes the selected optimum key; the
early break, however, does change the result, as the counterexample shows. -/
theorem c7_amended_presort_preserves_selected_key (players : List Player) :
    bestKey (searchLoopNoBreak players (sorted_team_splits players) none) =
      bestKey (find_best_teams_exhaustive players) := by
  unfold find_best_teams_exhaustive sorted_team_splits
  rw [searchLoopNoBreak_key, searchLoopNoBreak_key]
  exact foldl_keyStep_perm ((sortSplits_perm (team_splits players)).map _) none

end CreateTeamsV2

namespace CreateTeamsV2

theorem foldl_keyStep_some_mono :
    ∀ (l : List (Int × Int)) (a m : Int × Int),
      l.foldl keyStep (some a) = some m → toLex m ≤ toLex a := by
  intro l
  induction l with
  | nil =>
    intro a m h
    simp only [List.foldl_nil, Option.some_inj] at h
    subst h; exact le_refl _
  | cons x xs ih =>
    intro a m h
    simp only [List.foldl_cons, keyStep] at h
    have h1 := ih _ _ h
    rw [keyMin_eq_min, toLex_ofLex] at h1
    exact le_trans h1 (min_le_right _ _)

theorem foldl_keyStep_le :
    ∀ (l : List (Int × Int)) (b : Option (Int × Int)) (m : Int × Int),
      l.foldl keyStep b = some m → ∀ k ∈ l, toLex m ≤ toLex k := by
  intro l
  induction l with
  | nil => intro b m _ k hk; simp at hk
  | cons x xs ih =>
    intro b m h k hk
    simp only [List.foldl_cons] at h
    rcases List.mem_cons.mp hk with rfl | hk'
    · have hc : ∃ c, keyStep b k = some c ∧ toLex c ≤ toLex k := by
        cases b with
        | none => exact ⟨k, rfl, le_refl _⟩
        | some a =>
          refine ⟨keyMin k a, rfl, ?_⟩
          rw [keyMin_eq_min, toLex_ofLex]
          exact min_le_left _ _
      obtain ⟨c, hc1, hc2⟩ := hc
      rw [hc1] at h
      exact le_trans (foldl_keyStep_some_mono xs c m h) hc2
    · exact ih _ m h k hk'

theorem foldl_keyStep_mem :
    ∀ (l : List (Int × Int)) (b : Option (Int × Int)) (m : Int × Int),
      l.foldl keyStep b = some m → m ∈ l ∨ b = some m := by
  intro l
  induction l with
  | nil =>
    intro b m h
    simp only [List.foldl_nil] at h
    exact Or.inr h
  | cons x xs ih =>
    intro b m h
    simp only [List.foldl_cons] at h
    rcases ih _ m h with hm | hm
    · exact Or.inl (List.mem_cons_of_mem _ hm)
    · cases b with
      | none =>
        simp only [keyStep, Option.some_inj] at hm
        subst hm; exact Or.inl (List.mem_cons_self _ _)
      | some a =>
        simp only [keyStep, Option.some_inj] at hm
        unfold keyMin at hm
        by_cases hcond : x.1 < a.1 ∨ (x.1 = a.1 ∧ x.2 < a.2)
        · rw [if_pos hcond] at hm; subst hm; exact Or.inl (List.mem_cons_self _ _)
        · rw [if_neg hcond] at hm; subst hm; exact Or.inr rfl

theorem foldl_keyStep_some :
    ∀ (l : List (Int × Int)) (a : Int × Int),
      (l.foldl keyStep (some a)).isSome = true := by
  intro l
  induction l with
  | nil => intro a; rfl
  | cons x xs ih =>
    intro a
    simp only [List.foldl_cons, keyStep]
    exact ih _

end CreateTeamsV2

namespace CreateTeamsV2

/-- A zero-rated filler player. -/
def fillerZero : Player := Player.mk "z" none none (fun _ => 0)

/-- Roster on which the early exit locks in a non-optimal gap: index 0 is a
TOP specialist worth 100, index 1 is worth 100 on every role, index 2 is a
second TOP specialist worth 100, the rest are worth 0 everywhere.  The
heuristic order tries the split with indices [0,1,3,4,5] first; it has
offrole_diff 0 and gap 100, so the loop stops, although the split separating
the two TOP specialists has gap 0. -/
def ex7players : List Player :=
  [Player.mk "a" none none (fun r => if r = Role.TOP then 100 else 0),
   Player.mk "c" none none (fun _ => 100),
   Player.mk "b" none none (fun r => if r = Role.TOP then 100 else 0),
   fillerZero, fillerZero, fillerZero, fillerZero, fillerZero, fillerZero,
   fillerZero]

set_option maxRecDepth 4000000 in
set_option maxHeartbeats 4000000 in
theorem c7_find_best_teams_ex7 :
    (find_best_teams ex7players).map Best.delta = some 100 := by decide

set_option maxRecDepth 1000000 in
theorem c7_witness_split_key : evalKey ex7players [0, 2, 6, 7, 8] = (0, 0) := by
  decide

set_option maxRecDepth 1000000 in
theorem c7_witness_split_mem : ([0, 2, 6, 7, 8] : List Nat) ∈ team_split_indices := by
  decide

theorem c7_exhaustive_delta_eq_zero :
    (find_best_teams_exhaustive ex7players).map Best.delta = some 0 := by
  have hkeys : (team_splits ex7players).map (fun s => evalKey ex7players s.2) =
      team_split_indices.map (fun idx => evalKey ex7players idx) := by
    unfold team_splits
    rw [List.map_map]
    rfl
  have hkey : bestKey (find_best_teams_exhaustive ex7players) =
      (team_split_indices.map (fun idx => evalKey ex7players idx)).foldl keyStep none := by
    unfold find_best_teams_exhaustive
    rw [searchLoopNoBreak_key, hkeys]
    rfl
  have hmem0 : (0, 0) ∈ team_split_indices.map (fun idx => evalKey ex7players idx) := by
    rw [← c7_witness_split_key]
    exact List.mem_map_of_mem _ c7_witness_split_mem
  obtain ⟨x, xs, hcons⟩ : ∃ x xs,
      team_split_indices.map (fun idx => evalKey ex7players idx) = x :: xs := by
    rcases h : team_split_indices.map (fun idx => evalKey ex7players idx) with _ | ⟨x, xs⟩
    · rw [h] at hmem0; simp at hmem0
    · exact ⟨x, xs, rfl⟩
  have hissome : ((team_split_indices.map
      (fun idx => evalKey ex7players idx)).foldl keyStep none).isSome = true := by
    rw [hcons]
    simp only [List.foldl_cons, keyStep]
    exact foldl_keyStep_some xs x
  obtain ⟨m, hm⟩ := Option.isSome_iff_exists.mp hissome
  have hle : toLex m ≤ toLex ((0 : Int), (0 : Int)) :=
    foldl_keyStep_le _ none m hm (0, 0) hmem0
  have hmm : m ∈ team_split_indices.map (fun idx => evalKey ex7players idx) := by
    rcases foldl_keyStep_mem _ none m hm with h | h
    · exact h
    · cases h
  have hnonneg : 0 ≤ m.1 ∧ 0 ≤ m.2 := by
    obtain ⟨idx, _, hidx⟩ := List.mem_map.mp hmm
    rw [← hidx]
    exact ⟨abs_nonneg _, abs_nonneg _⟩
  have hm00 : m = (0, 0) := by
    rcases (Prod.Lex.le_iff m (0, 0)).mp hle with h | ⟨h1, h2⟩
    · exact absurd h (not_lt.mpr hnonneg.1)
    · obtain ⟨m1, m2⟩ := m
      simp only at h1 h2
      have : m2 = 0 := le_antisymm h2 hnonneg.2
      rw [h1, this]
  have hbk : bestKey (find_best_teams_exhaustive ex7players) = some (0, 0) := by
    rw [hkey, hm, hm00]
  rcases hres : find_best_teams_exhaustive ex7players with _ | best
  · rw [hres] at hbk; simp [bestKey] at hbk
  · rw [hres] at hbk
    have hbk2 : (best.offrole_diff, best.delta) = ((0 : Int), (0 : Int)) := by
      simpa [bestKey] using hbk
    rw [Prod.mk.injEq] at hbk2
    simp [hbk2.2]

/-- C7 counterexample: on ex7players the production search (pre-sorted order
with early exit) reports gap 100, while exhaustive evaluation of all splits
reports gap 0: the early termination changes the chosen split and gap. -/
theorem c7_early_exit_changes_result_counterexample :
    (find_best_teams ex7players).map Best.delta = some 100 ∧
    (find_best_teams_exhaustive ex7players).map Best.delta = some 0 ∧
    (find_best_teams ex7players).map Best.delta ≠
      (find_best_teams_exhaustive ex7players).map Best.delta := by
  refine ⟨c7_find_best_teams_ex7, c7_exhaustive_delta_eq_zero, ?_⟩
  rw [c7_find_best_teams_ex7, c7_exhaustive_delta_eq_zero]
  simp

end CreateTeamsV2

namespace CreateTeamsV2

/-- A TOP specialist: 2000 on TOP and 1000 elsewhere, so on any other role the
deficit is 1000 >= 500 and the player counts as off-role. -/
def topSpecialist : Player :=
  Player.mk "s" none none (fun r => if r = Role.TOP then 2000 else 1000)

/-- Ten identical TOP specialists: every 5-player team fields exactly four
off-role players, so under a cap of 2 every split would be excluded. -/
def ex3players : List Player :=
  [topSpecialist, topSpecialist, topSpecialist, topSpecialist, topSpecialist,
   topSpecialist, topSpecialist, topSpecialist, topSpecialist, topSpecialist]

set_option maxRecDepth 4000000 in
set_option maxHeartbeats 4000000 in
/-- C3 counterexample: on a roster of ten identical TOP specialists every
split gives both teams an off-role count of 4 > 2, yet find_best_teams
excludes nothing and returns an assignment (so the claimed NoValidSplit
failure cannot occur): the split selection applies no off-role cap. -/
theorem c3_no_offrole_cap_counterexample :
    (find_best_teams ex3players).isSome = true ∧
    (find_best_teams ex3players).map (fun b => b.t1.offrole_count) = some 4 ∧
    (find_best_teams ex3players).map (fun b => b.t2.offrole_count) = some 4 := by
  refine ⟨by decide, by decide, by decide⟩

theorem updateBest_isSome (b : Option Best) (e : SplitEval) :
    (updateBest b e).isSome = true := by
  cases b with
  | none => rfl
  | some best =>
    unfold updateBest
    split <;> rfl

theorem searchLoop_isSome (players : List Player) :
    ∀ (l : List (Int × List Nat)) (b : Option Best),
      b.isSome = true → (searchLoop players l b).isSome = true := by
  intro l
  induction l with
  | nil => intro b hb; exact hb
  | cons s rest ih =>
    intro b hb
    simp only [searchLoop]
    split
    · exact updateBest_isSome b _
    · exact ih _ (updateBest_isSome b _)

set_option maxRecDepth 1000000 in
/-- C3 amended: the split selection policy applies no validity constraint at
all - no split is ever excluded for excessive off-role counts - and
find_best_teams returns an assignment for every input roster, because the
first of the 252 enumerated splits always replaces the empty incumbent; the
NoValidSplit failure branch in run() is unreachable. -/
theorem c3_amended_no_split_excluded_never_fails (players : List Player) :
    (find_best_teams players).isSome = true := by
  unfold find_best_teams
  have hlen : (sorted_team_splits players).length = 252 := by
    unfold sorted_team_splits
    rw [(sortSplits_perm (team_splits players)).length_eq]
    unfold team_splits
    rw [List.length_map]
    decide
  rcases h : sorted_team_splits players with _ | ⟨s, rest⟩
  · rw [h] at hlen; simp at hlen
  · simp only [searchLoop]
    split
    · exact updateBest_isSome none _
    · exact searchLoop_isSome players rest _ (updateBest_isSome none _)

end CreateTeamsV2

namespace CreateTeamsV2

/-- RANK_MMR_DEFAULTS (lines 14-25): linear MMR scale per tier. -/
def RANK_MMR_DEFAULTS : List (String × Int) :=
  [("IRON", 0), ("BRONZE", 500), ("SILVER", 1000), ("GOLD", 1500),
   ("PLATINUM", 2000), ("EMERALD", 2500), ("DIAMOND", 3000), ("MASTER", 3500),
   ("GRANDMASTER", 4000), ("CHALLENGER", 4500)]

/-- DIVISION_OFFSET (lines 27-32): offsets for division labels 1-4. -/
def DIVISION_OFFSET : List (String × Int) :=
  [("1", 375), ("2", 250), ("3", 125), ("4", 0)]

/-- Python dict lookup returning None when the key is absent. -/
def lookupTable (l : List (String × Int)) (k : String) : Option Int :=
  (l.find? (fun e => e.1 == k)).map (fun e => e.2)

/-- DIVISION_OFFSET.get(division, 100) as written on line 96: the fallback
offset for a division label outside the table is 100. -/
def divisionOffsetUsed (division : String) : Int :=
  (lookupTable DIVISION_OFFSET division).getD 100

/-- str.upper() restricted to ASCII, written on the character list because
String.map does not reduce in the kernel. -/
def pyUpper (s : String) : String := String.mk (s.data.map Char.toUpper)

/-- str.split(): split on runs of spaces, dropping empty pieces, written on
the character list because String.splitOn does not reduce in the kernel. -/
def wordsAux : List Char → List Char → List String
  | [], acc => if acc = [] then [] else [String.mk acc.reverse]
  | c :: cs, acc =>
      if c = ' ' then
        (if acc = [] then wordsAux cs [] else String.mk acc.reverse :: wordsAux cs [])
      else wordsAux cs (c :: acc)

def pySplit (s : String) : List String := wordsAux s.data []

/-- Seeding base MMR of load_roster (lines 90-96): the rank field defaults to
"Silver 3" when absent, the tier part falls back to the SILVER base 1000, the
division part defaults to label "3" when missing and to offset 100 when not in
the table.  (A whitespace-only rank string raises in Python; the headD ""
placeholder is unreachable for the well-formed inputs considered here.) -/
def seedBaseMMR (rankField : Option String) : Int :=
  let rank_parts := pySplit (rankField.getD "Silver 3")
  let rank := pyUpper (rank_parts.headD "")
  let division := rank_parts.getD 1 "3"
  (lookupTable RANK_MMR_DEFAULTS rank).getD 1000 + divisionOffsetUsed division

/-- ROLE_PENALTIES (lines 35-39) applied when seeding (lines 98-107). -/
def seed_mmr (primary secondary : Option Role) (base_mmr : Int) : Role → Int :=
  fun role =>
    base_mmr +
      (if primary = some role ∨ primary = none ∨ secondary = none then 0
       else if secondary = some role then -200
       else -500)

/-- C5 counterexample: a division label outside the 1-4 table ("Gold 7")
contributes offset 100, not the claimed 0, seeding base 1600 instead of 1500;
and a participant with no rank field is seeded from the default "Silver 3",
base 1125 = 1000 + 125, not at the lowest division (offset 0, base 1000). -/
theorem c5_division_default_counterexample :
    seedBaseMMR (some "Gold 7") = 1600 ∧
    seedBaseMMR (some "Gold 7") ≠ 1500 ∧
    seedBaseMMR none = 1125 ∧
    seedBaseMMR none ≠ 1000 := by
  refine ⟨by decide, by decide, by decide, by decide⟩

/-- C5 amended: a division label absent from the roster entry defaults to "3"
(offset 125), a division label outside the 1-4 table contributes the fallback
offset 100 (not 0), and a participant with no rank field is seeded from
"Silver 3": the middle tier with division 3, base 1125, not the lowest
division. -/
theorem c5_amended_division_and_rank_defaults :
    (∀ d : String, lookupTable DIVISION_OFFSET d = none → divisionOffsetUsed d = 100) ∧
    seedBaseMMR (some "Gold") = 1625 ∧
    seedBaseMMR none = 1125 := by
  refine ⟨?_, by decide, by decide⟩
  intro d hd
  unfold divisionOffsetUsed
  rw [hd]
  rfl

theorem c5_amended_witness : divisionOffsetUsed "7" = 100 :=
  c5_amended_division_and_rank_defaults.1 "7" (by decide)

end CreateTeamsV2

namespace UploadGameResults

/-! Embedding of src/interactions/upload_game_results.py: the rating update
engine (calculate_mmr_changes, commit_results_to_firestore and the
run/handle_confirmation pipeline around them). -/

/-- A stored player document: preferred roles (FILL as none) and the per-role
MMR map; mmr_map yields none for roles without a stored entry, covering both
a missing key and a missing map. -/
structure PlayerDoc where
  primary : Option Role
  secondary : Option Role
  mmr_map : Role → Option Int

/-- The players collection, keyed by in-game name. -/
abbrev Store : Type := String → Option PlayerDoc

/-- One roster line of a detected game result: in-game name and the actual
role played (from the screenshot). -/
structure TeamEntry where
  ign : String
  role : Role
deriving DecidableEq, Repr

/-- One value of the mmr_changes dict (lines 315-331). -/
structure MMRChange where
  role : Role
  change : Int
  old_mmr : Int
  new_mmr : Int
  opponent : String
  opponent_mmr : Int
deriving DecidableEq, Repr

/-- One detected role swap (lines 283-289). -/
structure RoleSwap where
  player : String
  expected : Option Role × Option Role
  actual : Role
deriving DecidableEq, Repr

/-- player_mmrs[name].get(role, 1500) (lines 306-307): the stored rating for
the actual role played, defaulting to 1500. -/
def getMMR (store : Store) (name : String) (role : Role) : Int :=
  match store name with
  | some doc => (doc.mmr_map role).getD 1500
  | none => 1500

/-- Role swap detection (lines 274-289): actual role differs from both
preferences and the primary preference is not FILL. -/
def roleSwapsOf (store : Store) (players : List TeamEntry) : List RoleSwap :=
  players.filterMap (fun p =>
    match store p.ign with
    | some d =>
        if d.primary ≠ some p.role ∧ d.secondary ≠ some p.role ∧ d.primary ≠ none
        then some (RoleSwap.mk p.ign (d.primary, d.secondary) p.role)
        else none
    | none => none)

/-- Python dict assignment d[k] = v on an association list: the new binding
shadows and removes any previous binding of k. -/
def dictInsert (l : List (String × MMRChange)) (k : String) (v : MMRChange) :
    List (String × MMRChange) :=
  (k, v) :: l.filter (fun q => !(q.1 == k))

/-- Python dict lookup d[k]. -/
def dictLookup (l : List (String × MMRChange)) (k : String) : Option MMRChange :=
  (l.find? (fun q => q.1 == k)).map (fun q => q.2)

/-- The winner's entry written on lines 315-322: gain
25 + min(35, max(0, (opponent_mmr - winner_mmr) // 100)). -/
def winnerEntry (store : Store) (w opp : TeamEntry) : MMRChange :=
  let winner_mmr := getMMR store w.ign w.role
  let opponent_mmr := getMMR store opp.ign w.role
  let bonus := min 35 (max 0 ((opponent_mmr - winner_mmr).fdiv 100))
  let winner_gain := 25 + bonus
  MMRChange.mk w.role winner_gain winner_mmr (winner_mmr + winner_gain)
    opp.ign opponent_mmr

/-- The paired loser's entry written on lines 324-331: a flat -25. -/
def loserEntry (store : Store) (w opp : TeamEntry) : MMRChange :=
  MMRChange.mk w.role (-25) (getMMR store opp.ign w.role)
    (getMMR store opp.ign w.role - 25) w.ign (getMMR store w.ign w.role)

/-- The winner loop of calculate_mmr_changes (lines 292-331): for each winner
find the first loser on the same actual role (skipping winners with no
opponent) and record the winner's gain and the loser's flat -25. -/
def processWinners (store : Store) (losing : List TeamEntry) :
    List TeamEntry → List (String × MMRChange) → List (String × MMRChange)
  | [], acc => acc
  | w :: ws, acc =>
    match losing.find? (fun p => p.role == w.role) with
    | none => processWinners store losing ws acc
    | some opp =>
        processWinners store losing ws
          (dictInsert (dictInsert acc w.ign (winnerEntry store w opp))
            opp.ign (loserEntry store w opp))

/-- calculate_mmr_changes (lines 250-333): abort with None as soon as any
named participant has no stored profile (lines 262-272), otherwise return the
full delta map and the detected role swaps. -/
def calculate_mmr_changes (store : Store) (winning losing : List TeamEntry) :
    Option (List (String × MMRChange) × List RoleSwap) :=
  if (winning ++ losing).all (fun p => (store p.ign).isSome) then
    some (processWinners store losing winning [],
      roleSwapsOf store (winning ++ losing))
  else
    none

/-- One iteration of commit_results_to_firestore (lines 347-360): re-read the
player's document, overwrite the rating of the actual role played with the
precomputed new_mmr, leave everything else in the document alone; a vanished
document is skipped. -/
def commitStep (st : Store) (pc : String × MMRChange) : Store :=
  match st pc.1 with
  | some doc =>
      fun k =>
        if k = pc.1 then
          some { doc with
            mmr_map := fun r =>
              if r = pc.2.role then some pc.2.new_mmr else doc.mmr_map r }
        else st k
  | none => st

/-- commit_results_to_firestore (lines 336-394), restricted to the players
collection (the game_history records are a separate collection and never hold
ratings). -/
def commit_results_to_firestore (store : Store)
    (mmr_changes : List (String × MMRChange)) : Store :=
  mmr_changes.foldl commitStep store

/-- Outcome of the upload pipeline. -/
inductive UploadResult where
  | missingParticipant
  | committed (changes : List (String × MMRChange)) (swaps : List RoleSwap)

/-- The end-to-end rating update pipeline: run() computes the full delta map
first (line 432) and, when any participant is missing, reports an error and
returns with no write at all (lines 434-440); otherwise the precomputed map
is committed on confirmation (handle_confirmation, lines 531-534).  The
pending-confirmation record holds no ratings and is elided. -/
def upload_and_commit (store : Store) (winning losing : List TeamEntry) :
    Store × UploadResult :=
  match calculate_mmr_changes store winning losing with
  | none => (store, UploadResult.missingParticipant)
  | some (changes, swaps) =>
      (commit_results_to_firestore store changes,
       UploadResult.committed changes swaps)

end UploadGameResults

namespace UploadGameResults

/-- C8: if any participant named in the match outcome has no stored profile,
the pipeline reports the missing-participant failure and every stored rating
is left exactly as it was: the delta map is computed (and found incomputable)
before any persistence, so the store component of the result is the input
store itself. -/
theorem c8_missing_participant_no_mutation
    (store : Store) (winning losing : List TeamEntry) (p : TeamEntry)
    (hp : p ∈ winning ++ losing) (hmiss : store p.ign = none) :
    upload_and_commit store winning losing = (store, UploadResult.missingParticipant) := by
  unfold upload_and_commit calculate_mmr_changes
  cases hb : (winning ++ losing).all (fun q => (store q.ign).isSome) with
  | false => rfl
  | true =>
    exfalso
    have := List.all_eq_true.mp hb p hp
    rw [hmiss] at this
    simp at this

/-- A singleton store used to instantiate the rating update theorems. -/
def soloStore : Store := fun n =>
  if n = "w1" then
    some (PlayerDoc.mk (some Role.TOP) none
      (fun r => if r = Role.TOP then some 1500 else none))
  else none

theorem c8_missing_participant_witness :
    upload_and_commit soloStore [TeamEntry.mk "w1" Role.TOP]
        [TeamEntry.mk "l1" Role.TOP] =
      (soloStore, UploadResult.missingParticipant) :=
  c8_missing_participant_no_mutation soloStore _ _ (TeamEntry.mk "l1" Role.TOP)
    (by decide) rfl

end UploadGameResults

namespace UploadGameResults

theorem commitStep_other (st : Store) (pc : String × MMRChange) (m : String)
    (hm : m ≠ pc.1) : commitStep st pc m = st m := by
  unfold commitStep
  cases st pc.1 with
  | none => rfl
  | some doc => simp [hm]

theorem commitStep_self_other_role (st : Store) (pc : String × MMRChange)
    (r : Role) (hr : r ≠ pc.2.role) :
    (commitStep st pc pc.1).map (fun d => d.mmr_map r) =
      (st pc.1).map (fun d => d.mmr_map r) := by
  unfold commitStep
  cases h : st pc.1 with
  | none => simp [h]
  | some doc => simp [h, hr]

theorem commit_frame :
    ∀ (changes : List (String × MMRChange)) (store : Store) (m : String),
      m ∉ changes.map Prod.fst →
      commit_results_to_firestore store changes m = store m := by
  intro changes
  induction changes with
  | nil => intro store m _; rfl
  | cons c cs ih =>
    intro store m hm
    simp only [List.map_cons, List.mem_cons] at hm
    push_neg at hm
    obtain ⟨h1, h2⟩ := hm
    have hfold : commit_results_to_firestore store (c :: cs) =
        commit_results_to_firestore (commitStep store c) cs := rfl
    rw [hfold, ih _ m h2, commitStep_other store c m h1]

private theorem c9_aux :
    ∀ (changes : List (String × MMRChange)) (store : Store),
      (changes.map Prod.fst).Nodup →
      ∀ (n : String) (e : MMRChange), (n, e) ∈ changes →
      ∀ r : Role, r ≠ e.role →
      ((commit_results_to_firestore store changes) n).map (fun d => d.mmr_map r) =
        (store n).map (fun d => d.mmr_map r) := by
  intro changes
  induction changes with
  | nil => intro store _ n e hmem; simp at hmem
  | cons c cs ih =>
    intro store hnd n e hmem r hr
    simp only [List.map_cons, List.nodup_cons] at hnd
    obtain ⟨hc1, hc2⟩ := hnd
    have hfold : commit_results_to_firestore store (c :: cs) =
        commit_results_to_firestore (commitStep store c) cs := rfl
    rw [hfold]
    rcases List.mem_cons.mp hmem with heq | hmem'
    · subst heq
      rw [commit_frame cs _ n hc1]
      exact commitStep_self_other_role store (n, e) r hr
    · have hn : n ≠ c.1 := by
        intro h
        exact hc1 (h ▸ List.mem_map_of_mem Prod.fst hmem')
      rw [ih (commitStep store c) hc2 n e hmem' r hr,
        commitStep_other store c n hn]

/-- C9: when a computed delta map is committed, each updated participant has
only the rating of the actual role they played overwritten; the stored rating
of every other role is exactly what it was before the commit. -/
theorem c9_commit_mutates_only_actual_role
    (store : Store) (changes : List (String × MMRChange))
    (hnd : (changes.map Prod.fst).Nodup)
    (n : String) (e : MMRChange) (hmem : (n, e) ∈ changes)
    (r : Role) (hr : r ≠ e.role) :
    ((commit_results_to_firestore store changes) n).map (fun d => d.mmr_map r) =
      (store n).map (fun d => d.mmr_map r) :=
  c9_aux changes store hnd n e hmem r hr

theorem c9_commit_witness :
    ((commit_results_to_firestore soloStore
        [("w1", MMRChange.mk Role.TOP 30 1500 1530 "l1" 2000)]) "w1").map
        (fun d => d.mmr_map Role.MID) =
      (soloStore "w1").map (fun d => d.mmr_map Role.MID) :=
  c9_commit_mutates_only_actual_role soloStore
    [("w1", MMRChange.mk Role.TOP 30 1500 1530 "l1" 2000)] (by simp)
    "w1" (MMRChange.mk Role.TOP 30 1500 1530 "l1" 2000) (by simp)
    Role.MID (by decide)

end UploadGameResults

namespace UploadGameResults

theorem dictLookup_insert_self (l : List (String × MMRChange)) (k : String)
    (v : MMRChange) : dictLookup (dictInsert l k v) k = some v := by
  unfold dictInsert dictLookup
  rw [List.find?_cons_of_pos]
  · rfl
  · simp

theorem find?_filter_ne (m k : String) (hm : m ≠ k) :
    ∀ l : List (String × MMRChange),
      (l.filter (fun q => !(q.1 == k))).find? (fun q => q.1 == m) =
        l.find? (fun q => q.1 == m) := by
  intro l
  induction l with
  | nil => rfl
  | cons x xs ih =>
    simp only [List.filter_cons]
    by_cases hx : x.1 = k
    · have hpx : (x.1 == m) = false := by
        rw [hx]
        exact beq_eq_false_iff_ne.mpr (fun h => hm h.symm)
      have hqx : (!(x.1 == k)) = false := by
        rw [hx]
        simp
      rw [hqx]
      simp only [Bool.false_eq_true, if_false]
      rw [ih]
      simp [List.find?_cons, hpx]
    · have hqx : (!(x.1 == k)) = true := by
        simp [hx]
      rw [hqx]
      simp only [if_true]
      simp only [List.find?_cons, ih]

theorem dictLookup_insert_ne (l : List (String × MMRChange)) (k : String)
    (v : MMRChange) (m : String) (hm : m ≠ k) :
    dictLookup (dictInsert l k v) m = dictLookup l m := by
  unfold dictInsert dictLookup
  rw [List.find?_cons_of_neg _ (by simpa using fun h => hm h.symm),
    find?_filter_ne m k hm l]

theorem dictLookup_insert_isSome (l : List (String × MMRChange)) (k : String)
    (v : MMRChange) (m : String) (h : (dictLookup l m).isSome = true) :
    (dictLookup (dictInsert l k v) m).isSome = true := by
  by_cases hm : m = k
  · subst hm; rw [dictLookup_insert_self]; rfl
  · rw [dictLookup_insert_ne _ _ _ _ hm]; exact h

theorem processWinners_frame (store : Store) (losing : List TeamEntry) :
    ∀ (ws : List TeamEntry) (acc : List (String × MMRChange)) (m : String),
      m ∉ ws.map TeamEntry.ign → m ∉ losing.map TeamEntry.ign →
      dictLookup (processWinners store losing ws acc) m = dictLookup acc m := by
  intro ws
  induction ws with
  | nil => intro acc m _ _; rfl
  | cons u us ih =>
    intro acc m hm hml
    simp only [List.map_cons, List.mem_cons] at hm
    push_neg at hm
    obtain ⟨hm1, hm2⟩ := hm
    simp only [processWinners]
    cases hfind : losing.find? (fun p => p.role == u.role) with
    | none => exact ih acc m hm2 hml
    | some opp =>
      have hmo : m ≠ opp.ign := by
        intro h
        exact hml (h ▸ List.mem_map_of_mem TeamEntry.ign
          (List.mem_of_find?_eq_some hfind))
      rw [ih _ m hm2 hml, dictLookup_insert_ne _ _ _ _ hmo,
        dictLookup_insert_ne _ _ _ _ hm1]

theorem processWinners_isSome (store : Store) (losing : List TeamEntry) :
    ∀ (ws : List TeamEntry) (acc : List (String × MMRChange)) (m : String),
      (dictLookup acc m).isSome = true →
      (dictLookup (processWinners store losing ws acc) m).isSome = true := by
  intro ws
  induction ws with
  | nil => intro acc m h; exact h
  | cons u us ih =>
    intro acc m h
    simp only [processWinners]
    cases hfind : losing.find? (fun p => p.role == u.role) with
    | none => exact ih acc m h
    | some opp =>
      exact ih _ m (dictLookup_insert_isSome _ _ _ _
        (dictLookup_insert_isSome _ _ _ _ h))

theorem processWinners_loser_change (store : Store) (losing : List TeamEntry) :
    ∀ (ws : List TeamEntry) (acc : List (String × MMRChange)) (m : String),
      m ∉ ws.map TeamEntry.ign →
      (∀ e, dictLookup acc m = some e → e.change = -25) →
      ∀ e, dictLookup (processWinners store losing ws acc) m = some e →
        e.change = -25 := by
  intro ws
  induction ws with
  | nil => intro acc m _ hacc e he; exact hacc e he
  | cons u us ih =>
    intro acc m hm hacc e he
    simp only [List.map_cons, List.mem_cons] at hm
    push_neg at hm
    obtain ⟨hm1, hm2⟩ := hm
    simp only [processWinners] at he
    cases hfind : losing.find? (fun p => p.role == u.role) with
    | none =>
      rw [hfind] at he
      exact ih acc m hm2 hacc e he
    | some opp =>
      rw [hfind] at he
      refine ih _ m hm2 ?_ e he
      intro e' he'
      by_cases hmo : m = opp.ign
      · subst hmo
        rw [dictLookup_insert_self] at he'
        cases he'
        rfl
      · rw [dictLookup_insert_ne _ _ _ _ hmo,
          dictLookup_insert_ne _ _ _ _ hm1] at he'
        exact hacc e' he'

theorem processWinners_winner_entry (store : Store) (losing : List TeamEntry) :
    ∀ (ws : List TeamEntry) (acc : List (String × MMRChange)) (w : TeamEntry),
      w ∈ ws → (ws.map TeamEntry.ign).Nodup →
      (∀ x ∈ ws, x.ign ∉ losing.map TeamEntry.ign) →
      ∀ opp, losing.find? (fun p => p.role == w.role) = some opp →
      dictLookup (processWinners store losing ws acc) w.ign =
        some (winnerEntry store w opp) := by
  intro ws
  induction ws with
  | nil => intro acc w hw; simp at hw
  | cons u us ih =>
    intro acc w hw hnd hdisj opp hopp
    simp only [List.map_cons, List.nodup_cons] at hnd
    obtain ⟨hu1, hu2⟩ := hnd
    rcases List.mem_cons.mp hw with rfl | hw'
    · simp only [processWinners]
      rw [hopp]
      have hwl : w.ign ∉ losing.map TeamEntry.ign :=
        hdisj w (List.mem_cons_self _ _)
      rw [processWinners_frame store losing us _ w.ign hu1 hwl]
      have hwopp : w.ign ≠ opp.ign := by
        intro h
        exact hwl (h ▸ List.mem_map_of_mem TeamEntry.ign
          (List.mem_of_find?_eq_some hopp))
      rw [dictLookup_insert_ne _ _ _ _ hwopp, dictLookup_insert_self]
    · simp only [processWinners]
      cases hfind : losing.find? (fun p => p.role == u.role) with
      | none =>
        exact ih acc w hw' hu2
          (fun x hx => hdisj x (List.mem_cons_of_mem _ hx)) opp hopp
      | some oppu =>
        exact ih _ w hw' hu2
          (fun x hx => hdisj x (List.mem_cons_of_mem _ hx)) opp hopp

theorem processWinners_opp_isSome (store : Store) (losing : List TeamEntry) :
    ∀ (ws : List TeamEntry) (acc : List (String × MMRChange)) (w : TeamEntry),
      w ∈ ws →
      ∀ opp, losing.find? (fun p => p.role == w.role) = some opp →
      (dictLookup (processWinners store losing ws acc) opp.ign).isSome = true := by
  intro ws
  induction ws with
  | nil => intro acc w hw; simp at hw
  | cons u us ih =>
    intro acc w hw opp hopp
    rcases List.mem_cons.mp hw with rfl | hw'
    · simp only [processWinners]
      rw [hopp]
      apply processWinners_isSome
      rw [dictLookup_insert_self]
      rfl
    · simp only [processWinners]
      cases hfind : losing.find? (fun p => p.role == u.role) with
      | none => exact ih acc w hw' opp hopp
      | some oppu => exact ih _ w hw' opp hopp

end UploadGameResults

namespace UploadGameResults

/-- C4: for every winner matched against the loser who played the same actual
role, the delta map records the winner's gain as
25 + clamp(0, 35, floor((opponentRating - winnerRating) / 100)) over the
integers, a gain always within [25, 60], and the paired loser's recorded
change is exactly -25, whatever the ratings. -/
theorem c4_winner_gain_formula_and_flat_loser_loss
    (store : Store) (winning losing : List TeamEntry)
    (changes : List (String × MMRChange)) (swaps : List RoleSwap)
    (hres : calculate_mmr_changes store winning losing = some (changes, swaps))
    (hnd : ((winning ++ losing).map TeamEntry.ign).Nodup)
    (w : TeamEntry) (hw : w ∈ winning)
    (opp : TeamEntry) (hopp : losing.find? (fun p => p.role == w.role) = some opp) :
    dictLookup changes w.ign = some (winnerEntry store w opp) ∧
    (winnerEntry store w opp).change =
      25 + min 35 (max 0
        ((getMMR store opp.ign w.role - getMMR store w.ign w.role).fdiv 100)) ∧
    25 ≤ (winnerEntry store w opp).change ∧
    (winnerEntry store w opp).change ≤ 60 ∧
    ∃ eo, dictLookup changes opp.ign = some eo ∧ eo.change = -25 := by
  have hchanges : changes = processWinners store losing winning [] := by
    unfold calculate_mmr_changes at hres
    cases hb : (winning ++ losing).all (fun p => (store p.ign).isSome) with
    | false => rw [hb] at hres; simp at hres
    | true =>
      rw [hb] at hres
      simp only [if_true, Option.some_inj, Prod.mk.injEq] at hres
      exact hres.1.symm
  rw [List.map_append] at hnd
  obtain ⟨hnw, hnl, hdisj⟩ := List.nodup_append.mp hnd
  have hdisj' : ∀ x ∈ winning, x.ign ∉ losing.map TeamEntry.ign :=
    fun x hx h => hdisj (List.mem_map_of_mem TeamEntry.ign hx) h
  have hopp_mem : opp ∈ losing := List.mem_of_find?_eq_some hopp
  subst hchanges
  refine ⟨?_, rfl, ?_, ?_, ?_⟩
  · exact processWinners_winner_entry store losing winning [] w hw hnw hdisj' opp hopp
  · have h3 : 0 ≤ min 35 (max 0
        ((getMMR store opp.ign w.role - getMMR store w.ign w.role).fdiv 100)) :=
      le_min (by norm_num) (le_max_left 0 _)
    have hch : (winnerEntry store w opp).change = 25 + min 35 (max 0
        ((getMMR store opp.ign w.role - getMMR store w.ign w.role).fdiv 100)) := rfl
    omega
  · have h2 : min 35 (max 0
        ((getMMR store opp.ign w.role - getMMR store w.ign w.role).fdiv 100)) ≤ 35 :=
      min_le_left _ _
    have hch : (winnerEntry store w opp).change = 25 + min 35 (max 0
        ((getMMR store opp.ign w.role - getMMR store w.ign w.role).fdiv 100)) := rfl
    omega
  · have hsome : (dictLookup (processWinners store losing winning []) opp.ign).isSome = true :=
      processWinners_opp_isSome store losing winning [] w hw opp hopp
    obtain ⟨eo, heo⟩ := Option.isSome_iff_exists.mp hsome
    refine ⟨eo, heo, ?_⟩
    have hoppw : opp.ign ∉ winning.map TeamEntry.ign := by
      intro h
      exact hdisj h (List.mem_map_of_mem TeamEntry.ign hopp_mem)
    refine processWinners_loser_change store losing winning [] opp.ign hoppw ?_ eo heo
    intro e' he'
    simp [dictLookup] at he'

/-- The two-player store used to instantiate the rating update theorems:
winner at 1500 on TOP, loser at 2000 on TOP, so the winner's gain is
25 + min(35, 500 // 100) = 30, matching the worked example of the spec. -/
def pairStore : Store := fun n =>
  if n = "w1" then
    some (PlayerDoc.mk (some Role.TOP) none
      (fun r => if r = Role.TOP then some 1500 else none))
  else if n = "l1" then
    some (PlayerDoc.mk (some Role.TOP) none
      (fun r => if r = Role.TOP then some 2000 else none))
  else none

theorem c4_winner_gain_witness :
    dictLookup
        [("l1", MMRChange.mk Role.TOP (-25) 2000 1975 "w1" 1500),
         ("w1", MMRChange.mk Role.TOP 30 1500 1530 "l1" 2000)] "w1" =
      some (winnerEntry pairStore (TeamEntry.mk "w1" Role.TOP)
        (TeamEntry.mk "l1" Role.TOP)) ∧
    (winnerEntry pairStore (TeamEntry.mk "w1" Role.TOP)
        (TeamEntry.mk "l1" Role.TOP)).change =
      25 + min 35 (max 0 ((getMMR pairStore "l1" Role.TOP -
        getMMR pairStore "w1" Role.TOP).fdiv 100)) ∧
    25 ≤ (winnerEntry pairStore (TeamEntry.mk "w1" Role.TOP)
        (TeamEntry.mk "l1" Role.TOP)).change ∧
    (winnerEntry pairStore (TeamEntry.mk "w1" Role.TOP)
        (TeamEntry.mk "l1" Role.TOP)).change ≤ 60 ∧
    ∃ eo, dictLookup
        [("l1", MMRChange.mk Role.TOP (-25) 2000 1975 "w1" 1500),
         ("w1", MMRChange.mk Role.TOP 30 1500 1530 "l1" 2000)] "l1" =
      some eo ∧ eo.change = -25 :=
  c4_winner_gain_formula_and_flat_loser_loss pairStore
    [TeamEntry.mk "w1" Role.TOP] [TeamEntry.mk "l1" Role.TOP]
    [("l1", MMRChange.mk Role.TOP (-25) 2000 1975 "w1" 1500),
     ("w1", MMRChange.mk Role.TOP 30 1500 1530 "l1" 2000)] []
    (by decide) (by decide)
    (TeamEntry.mk "w1" Role.TOP) (by decide)
    (TeamEntry.mk "l1" Role.TOP) (by decide)

end UploadGameResults
